import Mathlib

/-!
Verification development for the Repository-Tracker dependency tracker.

The Go sources consist of three files: `tracker.go` (package repotracker:
GitRepo, Changelog, Commit, NewCommits, CheckUpdate, CommitLog,
parseChangelog, ensureCacheDir, updateCache), `repo.go` (package main:
rule resolution, httpGitMapper, HTTPToGit, writeToFile) and `reporter.go`
(package repotracker: TextReport and its markdown template, plus the
worker-pool main loop).

Every definition below is a shallow embedding translated from those
sources.  Strings are Lean `String`s manipulated through their `List Char`
data; machine integers are `Int` with explicit range checks where the Go
code checks them; fallible Go code returning `(T, error)` becomes
`Except String T`; the external `git` tool is modelled by an explicit
commit-graph structure following the documented behaviour of the exact
commands the source invokes.
-/

deriving instance DecidableEq for Except

namespace RepoTracker

/-! ## Low-level character-list utilities

Helpers for the string splitting done by the Go source via
`strings.SplitN`, `strings.Split`, `bufio.Scanner` and `regexp`.
-/

/-- The NUL byte used as the field separator in the `git log` pretty
format `%H%x00%D%x00%ct%x00%s` of `CommitLog` (tracker.go). -/
def nulChar : Char := '\x00'

/-- Splits a character list at the first occurrence of `sep`, returning
the part before and the part after, or `none` when `sep` does not occur. -/
def splitFirstOn (sep : Char) : List Char → Option (List Char × List Char)
  | [] => none
  | c :: cs =>
    if c = sep then some ([], cs)
    else
      match splitFirstOn sep cs with
      | none => none
      | some (pre, post) => some (c :: pre, post)

/-- Fuelled unbounded split on a separator character; with fuel at least
`cs.length + 1` it computes the full list of separated fields, matching
Go `strings.Split` for a one-character separator. -/
def splitAllOnFuel (sep : Char) : Nat → List Char → List (List Char)
  | 0, cs => [cs]
  | Nat.succ n, cs =>
    match splitFirstOn sep cs with
    | none => [cs]
    | some (pre, post) => pre :: splitAllOnFuel sep n post

/-- Full split of a character list on a separator character
(Go `strings.Split(s, sep)` for a one-character `sep`). -/
def splitAllOn (sep : Char) (cs : List Char) : List (List Char) :=
  splitAllOnFuel sep (cs.length + 1) cs

/-- Split into at most `n` parts on a separator character
(Go `strings.SplitN(s, sep, n)` for a one-character `sep` and `n ≥ 1`);
the final part keeps any remaining separators. -/
def splitNOn (sep : Char) : Nat → List Char → List (List Char)
  | 0, cs => [cs]
  | 1, cs => [cs]
  | Nat.succ (Nat.succ n), cs =>
    match splitFirstOn sep cs with
    | none => [cs]
    | some (pre, post) => pre :: splitNOn sep (Nat.succ n) post

/-! ## URL parsing

The source calls `net/url.Parse` and then uses only `u.Host` and
`u.Path`.  The model below parses plain `http://` or `https://` URLs
without userinfo, port, query or fragment, which covers every URL shape
the repository handles (`github.com` and `codeload.github.com` archive
URLs and plain git remotes); on such inputs it agrees with Go
`url.Parse`. -/

/-- Strips a leading `https://` or `http://` scheme, returning the rest. -/
def stripHTTPScheme : List Char → Option (List Char)
  | 'h' :: 't' :: 't' :: 'p' :: 's' :: ':' :: '/' :: '/' :: rest => some rest
  | 'h' :: 't' :: 't' :: 'p' :: ':' :: '/' :: '/' :: rest => some rest
  | _ => none

/-- Parses a URL into its `(host, path)` pair, modelling the
`u.Host` / `u.Path` fields of Go `net/url.Parse` on plain http(s) URLs.
The path keeps its leading slash, as in Go; a URL with no path yields
the empty path. -/
def urlParse (s : String) : Option (String × String) :=
  match stripHTTPScheme s.data with
  | none => none
  | some rest =>
    match splitFirstOn '/' rest with
    | none => some (String.mk rest, "")
    | some (host, path) => some (String.mk host, String.mk ('/' :: path))

/-! ## Rule resolution: httpGitMapper (repo.go)

The source keeps two anchored regular expressions:

`githubRE = ^/([^\/]+)/([^\/]+)/(?:archive|releases/download)/([^\/]+)(?:\.(?:tar\.gz|zip)|/[^\/]+)$`

`githubCodeloadRE = ^/([^\/]+)/([^\/]+)/(?:[^\/]+)/(.+)$`

Both are anchored and segment-shaped, so they are translated as functions
over the list of `/`-separated path segments.  `githubREMatch` returns the
three capture groups `(owner, repo, revision)` exactly when the regular
expression matches, resolving the greedy third group plus suffix
alternation: the revision segment either carries a literal `.tar.gz` or
`.zip` suffix, or is followed by exactly one further nonempty segment. -/

/-- Strips the `.tar.gz` or `.zip` suffix demanded by the final
alternation of `githubRE`, returning the nonempty revision in front of
it, or `none` when neither suffix is present or nothing precedes it. -/
def stripArchiveSuffix (seg : List Char) : Option (List Char) :=
  let n := seg.length
  if 7 < n ∧ seg.drop (n - 7) = ['.', 't', 'a', 'r', '.', 'g', 'z'] then
    some (seg.take (n - 7))
  else if 4 < n ∧ seg.drop (n - 4) = ['.', 'z', 'i', 'p'] then
    some (seg.take (n - 4))
  else none

/-- Matching function of `githubRE` (repo.go): on a URL path it yields
the capture groups `(owner, repo, revision)`, or `none` when the regular
expression does not match.  The middle alternation is either the single
segment `archive` or the two segments `releases/download`; the trailing
alternation is either a `.tar.gz`/`.zip` suffix on the revision segment
or exactly one further nonempty segment. -/
def githubREMatch (path : String) : Option (String × String × String) :=
  match splitAllOn '/' path.data with
  | [] :: s1 :: s2 :: rest =>
    if s1 = [] ∨ s2 = [] then none
    else
      let wrap := fun (rev : List Char) => (String.mk s1, String.mk s2, String.mk rev)
      match rest with
      | [mid, last] =>
        if mid = "archive".data then (stripArchiveSuffix last).map wrap else none
      | [m1, g3, seg] =>
        if m1 = "archive".data then
          if g3 = [] ∨ seg = [] then none else some (wrap g3)
        else if m1 = "releases".data ∧ g3 = "download".data then
          (stripArchiveSuffix seg).map wrap
        else none
      | [m1, m2, g3, seg] =>
        if m1 = "releases".data ∧ m2 = "download".data then
          if g3 = [] ∨ seg = [] then none else some (wrap g3)
        else none
      | _ => none
  | _ => none

/-- Matching function of `githubCodeloadRE` (repo.go): the path must have
the shape `/owner/repo/kind/rest` where `rest`, the third capture group,
is any nonempty remainder (slashes included, matching the `.+` group). -/
def githubCodeloadREMatch (path : String) : Option (String × String × String) :=
  match splitAllOn '/' path.data with
  | [] :: s1 :: s2 :: s3 :: rest =>
    if s1 = [] ∨ s2 = [] ∨ s3 = [] ∨ rest = [] then none
    else
      let g3 := String.intercalate "/" (rest.map String.mk)
      if g3 = "" then none
      else some (String.mk s1, String.mk s2, g3)
  | _ => none

/-- Canonical `{revision, url}` git coordinate, translated from the Go
struct `gitPackageInfo` (repo.go). -/
structure gitPackageInfo where
  Revision : String
  URL : String
deriving DecidableEq

/-- Entry of `httpGitMapper` for host `github.com` (repo.go): applies
`githubRE` to the URL path and synthesizes the canonical coordinate. -/
def githubMapperFn (path : String) : Except String gitPackageInfo :=
  match githubREMatch path with
  | none => Except.error "unsupported url"
  | some (owner, repo, rev) =>
    Except.ok { Revision := rev, URL := "https://github.com/" ++ owner ++ "/" ++ repo }

/-- Entry of `httpGitMapper` for host `codeload.github.com` (repo.go).
The source body applies `githubRE` — not `githubCodeloadRE`, which is
declared two dozen lines above with a codeload-shaped example in its
comment but is never referenced anywhere — so this translation applies
`githubREMatch` exactly as the source does. -/
def codeloadMapperFn (path : String) : Except String gitPackageInfo :=
  match githubREMatch path with
  | none => Except.error "unsupported url"
  | some (owner, repo, rev) =>
    Except.ok { Revision := rev, URL := "https://github.com/" ++ owner ++ "/" ++ repo }

/-- The `httpGitMapper` registry (repo.go): a lookup keyed by URL host. -/
def httpGitMapper (host : String) : Option (String → Except String gitPackageInfo) :=
  if host = "github.com" then some githubMapperFn
  else if host = "codeload.github.com" then some codeloadMapperFn
  else none

/-- Translation of `(*httpPackageInfo).HTTPToGit` (repo.go): iterate the
candidate URLs in order; skip a candidate whose URL does not parse, whose
host has no registered mapper, or whose mapper fails; return the first
successful coordinate, or the `no valid url` error when every candidate
is exhausted. -/
def HTTPToGit : List String → Except String gitPackageInfo
  | [] => Except.error "no valid url"
  | e :: rest =>
    match urlParse e with
    | none => HTTPToGit rest
    | some (host, path) =>
      match httpGitMapper host with
      | none => HTTPToGit rest
      | some mapper =>
        match mapper path with
        | Except.error _ => HTTPToGit rest
        | Except.ok g => Except.ok g

/-! ## Cache-path derivation: ensureCacheDir (tracker.go)

`ensureCacheDir` parses the repository URL, sanitizes `u.Host` and
`u.Path` with `pathUnsafeRE.ReplaceAllString(s, "_")` where
`pathUnsafeRE = [^\w]+` — after first trimming a leading `/` and a
trailing `.git` from the path — and joins the two sanitized components
under the process-wide cache root. -/

/-- Word characters of the regexp class `\w`, namely ASCII letters,
digits and underscore (Go regexp classes are ASCII by default). -/
def isWordChar (c : Char) : Bool :=
  ('a' ≤ c ∧ c ≤ 'z') ∨ ('A' ≤ c ∧ c ≤ 'Z') ∨ ('0' ≤ c ∧ c ≤ '9') ∨ c = '_'

/-- Character-by-character translation of
`pathUnsafeRE.ReplaceAllString(s, "_")`: the boolean state records
whether the scanner is inside a run of non-word characters, so that each
maximal run contributes exactly one `_`. -/
def collapseAux : Bool → List Char → List Char
  | _, [] => []
  | inRun, c :: cs =>
    if isWordChar c then c :: collapseAux false cs
    else if inRun then collapseAux true cs
    else '_' :: collapseAux true cs

/-- Sanitization used on both the host and the (trimmed) path component:
replaces every maximal run of non-word characters with one `_`. -/
def pathUnsafeCollapse (s : String) : String :=
  String.mk (collapseAux false s.data)

/-- Removes one leading `/`, modelling the
`strings.TrimPrefix(u.Path, "/")` call in `ensureCacheDir`. -/
def trimLeadingSlash (s : String) : String :=
  match s.data with
  | '/' :: rest => String.mk rest
  | _ => s

/-- Removes one trailing `.git`, modelling the
`strings.TrimSuffix(s, ".git")` call in `ensureCacheDir`. -/
def trimDotGit (s : String) : String :=
  let d := s.data
  let n := d.length
  if 4 ≤ n ∧ d.drop (n - 4) = ['.', 'g', 'i', 't'] then String.mk (d.take (n - 4))
  else s

/-- Models `filepath.Join` for the three components `ensureCacheDir`
joins: empty components are skipped and the rest are separated by `/`
(the sanitized components contain no slashes, so no cleaning beyond
that applies). -/
def joinPath (parts : List String) : String :=
  String.intercalate "/" (parts.filter (fun p => p ≠ ""))

/-- Cache directory derivation of `ensureCacheDir` (tracker.go): parse
the URL, sanitize host and trimmed path, and join them under the cache
root; `none` models the error return when the URL does not parse. -/
def cacheDirFor (root url : String) : Option String :=
  match urlParse url with
  | none => none
  | some (host, path) =>
    let hostName := pathUnsafeCollapse host
    let repoName := pathUnsafeCollapse (trimDotGit (trimLeadingSlash path))
    some (joinPath [root, hostName, repoName])

/-- Cache path as claim C8 words it, for comparison with the source
derivation: sanitization consists exactly of collapsing the non-word
runs of the host and path components, with no other transformation —
in particular without the leading-slash and `.git` trimming the source
applies to the path first. -/
def claimedCacheDir (root url : String) : Option String :=
  match urlParse url with
  | none => none
  | some (host, path) =>
    some (joinPath [root, pathUnsafeCollapse host, pathUnsafeCollapse path])


/-! ## Changelog parsing: parseChangelog (tracker.go)

`parseChangelog` scans the `git log` output line by line; each line is
split with `strings.SplitN(line, "\x00", 4)`, the result must have
exactly four parts, the third part must parse with
`strconv.ParseInt(parts[2], 10, 64)`, and the second part is the
comma-space separated tag list with a `tag: ` marker trimmed from each
entry.  A failing line aborts the whole call with an error and no
commit list. -/

/-- Storage structure of a single commit log entry, translated from the
Go struct `Commit` (tracker.go); `Date` is the epoch-seconds value passed
to `time.Unix(ts, 0)`. -/
structure Commit where
  Hash : String
  Tags : List String
  Date : Int
  Title : String
deriving DecidableEq

/-- Translation of `strconv.ParseInt(s, 10, 64)`: an optional `+` or `-`
sign followed by at least one ASCII digit, with the signed value required
to fit in a 64-bit integer; `none` models the error return. -/
def parseInt64 (s : String) : Option Int :=
  let core := fun (sign : Int) (ds : List Char) =>
    if ds = [] then none
    else if ds.all (fun c => '0' ≤ c ∧ c ≤ '9') then
      let v : Int := sign * (ds.foldl (fun a c => a * 10 + (c.toNat - '0'.toNat)) 0 : Nat)
      if -(2 ^ 63) ≤ v ∧ v ≤ 2 ^ 63 - 1 then some v else none
    else none
  match s.data with
  | '+' :: rest => core 1 rest
  | '-' :: rest => core (-1) rest
  | ds => core 1 ds

/-- Splits a character list at the first occurrence of the two-character
separator `, `, used by `strings.Split(parts[1], ", ")`. -/
def splitFirstCommaSpace : List Char → Option (List Char × List Char)
  | [] => none
  | c :: cs =>
    if c = ',' then
      match cs with
      | ' ' :: rest => some ([], rest)
      | _ =>
        match splitFirstCommaSpace cs with
        | none => none
        | some (pre, post) => some (c :: pre, post)
    else
      match splitFirstCommaSpace cs with
      | none => none
      | some (pre, post) => some (c :: pre, post)

/-- Fuelled full split on the separator `, `, matching Go
`strings.Split(s, ", ")` once the fuel is at least `cs.length + 1`. -/
def splitAllCommaSpaceFuel : Nat → List Char → List (List Char)
  | 0, cs => [cs]
  | Nat.succ n, cs =>
    match splitFirstCommaSpace cs with
    | none => [cs]
    | some (pre, post) => pre :: splitAllCommaSpaceFuel n post

/-- Full split on the separator `, ` (Go `strings.Split(s, ", ")`). -/
def splitAllCommaSpace (cs : List Char) : List (List Char) :=
  splitAllCommaSpaceFuel (cs.length + 1) cs

/-- Removes one leading `tag: ` marker, modelling
`strings.TrimPrefix(t[i], "tag: ")`. -/
def stripTagMarker : List Char → List Char
  | 't' :: 'a' :: 'g' :: ':' :: ' ' :: rest => rest
  | cs => cs

/-- Tag-field decoding of `parseChangelog`: an empty field yields no
tags, otherwise the field is split on `, ` and each entry loses a
leading `tag: ` marker, in emission order. -/
def parseTags (s : String) : List String :=
  if s = "" then []
  else (splitAllCommaSpace s.data).map (fun f => String.mk (stripTagMarker f))

/-- Parses one log line exactly as the loop body of `parseChangelog`
does: `SplitN` into at most four NUL-separated parts, require exactly
four with `len(parts) != 4`, parse the timestamp from `parts[2]`, decode
the tags from `parts[1]`. -/
def parseLine (line : String) : Except String Commit :=
  let parts := splitNOn nulChar 4 line.data
  if parts.length = 4 then
    match parseInt64 (String.mk (parts.getD 2 [])) with
    | none => Except.error "failed to parse time"
    | some ts =>
      Except.ok { Hash := String.mk (parts.getD 0 []),
                  Tags := parseTags (String.mk (parts.getD 1 [])),
                  Date := ts, Title := String.mk (parts.getD 3 []) }
  else Except.error "line is in a wrong format"

/-- Translation of `parseChangelog` (tracker.go) over the list of lines
produced by the `bufio.Scanner`: parses each line in order and aborts
with the first error, returning no partial commit list. -/
def parseChangelog : List String → Except String (List Commit)
  | [] => Except.ok []
  | l :: ls =>
    match parseLine l with
    | Except.error e => Except.error e
    | Except.ok c =>
      match parseChangelog ls with
      | Except.error e => Except.error e
      | Except.ok cs => Except.ok (c :: cs)

/-- Number of NUL-separated fields of a line, with no `SplitN` cap: this
is the field count the specification speaks about. -/
def nulFieldCount (line : String) : Nat :=
  (splitAllOn nulChar line.data).length

/-- Whether the third NUL-separated field of the line exists and parses
as a 64-bit decimal integer. -/
def thirdFieldNumeric (line : String) : Bool :=
  match (splitAllOn nulChar line.data).get? 2 with
  | none => false
  | some f => (parseInt64 (String.mk f)).isSome



/-! ## The external git tool

The source shells out to `git` via `runGit` (tracker.go), which turns
any non-zero exit status into a Go error carrying the command and its
combined output; the Go code never inspects anything but that error.
The tool itself is modelled by an explicit commit graph:

* `log` holds the commit metadata in the order `git log` emits it
  (newest first);
* `parents` is the child-to-parent edge list of the commit graph;
* `head` is the commit the ref `HEAD` resolves to.

`git merge-base --is-ancestor A B` exits 0 exactly when `A` is an
ancestor of `B` in the reflexive-transitive sense — in particular every
commit is an ancestor of itself — exits 1 when both commits exist but
`A` is not an ancestor, and fails fatally when either revision is
unknown.  The model reproduces those three outcomes. -/

/-- Commit graph and metadata of one remote repository. -/
structure GitHistory where
  log : List Commit
  parents : List (String × String)
  head : String
deriving DecidableEq

/-- Hashes present in the history. -/
def GitHistory.hashes (h : GitHistory) : List String :=
  h.log.map (fun c => c.Hash)

/-- Whether a revision string names a commit of the history. -/
def commitExists (h : GitHistory) (rev : String) : Bool :=
  h.hashes.contains rev

/-- Resolves the symbolic ref `HEAD` to the head commit; any other
string is taken as a commit hash. -/
def resolveRef (h : GitHistory) (rev : String) : String :=
  if rev = "HEAD" then h.head else rev

/-- One saturation step of ancestor collection: adds the parents of
every commit already collected. -/
def reachStep (es : List (String × String)) (acc : List String) : List String :=
  acc ++ ((es.filter (fun e => acc.contains e.1)).map (fun e => e.2)).filter
    (fun x => ¬ acc.contains x)

/-- Iterated saturation with explicit fuel. -/
def reachIter (es : List (String × String)) : Nat → List String → List String
  | 0, acc => acc
  | Nat.succ n, acc => reachIter es n (reachStep es acc)

/-- All ancestors of `t` (including `t` itself), computed by saturating
the parent relation; `es.length + 1` rounds suffice because every
productive round adds at least one commit and at most `es.length`
commits are ever added. -/
def ancestorsOf (h : GitHistory) (t : String) : List String :=
  reachIter h.parents (h.parents.length + 1) [t]

/-- Reflexive-transitive ancestry, as `git merge-base --is-ancestor`
decides it. -/
def isAncestor (h : GitHistory) (f t : String) : Bool :=
  (ancestorsOf h t).contains f

/-- Translation of `(*GitRepo).CheckUpdate` (tracker.go): run
`git merge-base --is-ancestor fromCommit toCommit`; exit status 0 yields
`(true, nil)`, and any failure — exit status 1 for an existing
non-ancestor as well as the fatal unknown-revision error — is wrapped by
`runGit` into a single generic error, so the function never returns
`false` without an error and reports no distinct revision-not-found
error kind. -/
def CheckUpdate (h : GitHistory) (fromCommit toCommit : String) : Except String Bool :=
  let f := resolveRef h fromCommit
  let t := resolveRef h toCommit
  if commitExists h f ∧ commitExists h t then
    if isAncestor h f t then Except.ok true
    else Except.error "git merge-base --is-ancestor failed: exit status 1"
  else Except.error "git merge-base --is-ancestor failed: unknown revision"

/-- Single-commit history used by several concrete checks. -/
def hist1 : GitHistory :=
  { log := [{ Hash := "abcdef1", Tags := [], Date := 1500000000, Title := "init" }],
    parents := [], head := "abcdef1" }

/-- Two-commit history: `bbbbbb2` is the child of `aaaaaa1` and is the
head. -/
def hist2 : GitHistory :=
  { log := [{ Hash := "bbbbbb2", Tags := ["v2.0"], Date := 1600000000, Title := "feature" },
            { Hash := "aaaaaa1", Tags := [], Date := 1500000000, Title := "init" }],
    parents := [("bbbbbb2", "aaaaaa1")], head := "bbbbbb2" }


/-! ## Mirror cache: NewGitRepo, ensureCacheDir, updateCache (tracker.go)

The filesystem is modelled as an association list from directory path to
content — `empty` right after `os.MkdirAll`, or `repo origin` once a
clone has populated it — plus an association list of ordinary files.
`updateCache` checks `isDirEmpty` and either runs
`git clone <url> --quiet .` (empty directory) or
`git pull origin master` (non-empty directory); a clone of a URL with no
reachable remote and a pull in a directory that is not a clone fail with
the wrapped `runGit` error.  The model also records the list of git
commands each call issues, which is the observable the idempotent-sync
property speaks about. -/

/-- Content of one cache directory. -/
inductive DirContent where
  | empty : DirContent
  | repo (origin : String) : DirContent
deriving DecidableEq

/-- Filesystem state: directories with their content, and regular files
with their text. Lookups take the most recent binding. -/
structure FS where
  dirs : List (String × DirContent)
  files : List (String × String)
deriving DecidableEq

/-- A git command issued by `updateCache`. -/
inductive GitCmd where
  | clone (url dir : String) : GitCmd
  | pull (dir : String) : GitCmd
deriving DecidableEq

/-- Whether a command is a clone. -/
def GitCmd.isClone : GitCmd → Bool
  | GitCmd.clone _ _ => true
  | GitCmd.pull _ => false

/-- Translation of the Go struct `GitRepo` (tracker.go). -/
structure GitRepo where
  Revision : String
  URL : String
  Dir : String
deriving DecidableEq

/-- Whole-system state: the configured cache root (the source uses the
process-wide `cacheDir = os.TempDir()` variable), the reachable remote
repositories, and the local filesystem. -/
structure World where
  root : String
  remotes : List (String × GitHistory)
  fs : FS
deriving DecidableEq

/-- Models `os.MkdirAll`: creates the directory empty when absent,
leaves it untouched when present. -/
def mkdirAll (fs : FS) (dir : String) : FS :=
  match fs.dirs.lookup dir with
  | some _ => fs
  | none => { fs with dirs := (dir, DirContent.empty) :: fs.dirs }

/-- Sets the content of a directory. -/
def setDir (fs : FS) (dir : String) (c : DirContent) : FS :=
  { fs with dirs := (dir, c) :: fs.dirs }

/-- Translation of `isDirEmpty` (tracker.go): error when the directory
cannot be opened, true when it holds no entry. -/
def isDirEmpty (fs : FS) (dir : String) : Except String Bool :=
  match fs.dirs.lookup dir with
  | none => Except.error "open failed"
  | some DirContent.empty => Except.ok true
  | some (DirContent.repo _) => Except.ok false

/-- Translation of `updateCache` (tracker.go): clone into an empty
directory, otherwise pull the default branch of the existing clone.
Returns the updated world and the git commands issued. -/
def updateCache (w : World) (r : GitRepo) : Except String (World × List GitCmd) :=
  match isDirEmpty w.fs r.Dir with
  | Except.error e => Except.error e
  | Except.ok true =>
    match w.remotes.lookup r.URL with
    | none => Except.error "git clone failed"
    | some _ =>
      Except.ok ({ w with fs := setDir w.fs r.Dir (DirContent.repo r.URL) },
                 [GitCmd.clone r.URL r.Dir])
  | Except.ok false =>
    match w.fs.dirs.lookup r.Dir with
    | some (DirContent.repo origin) =>
      match w.remotes.lookup origin with
      | none => Except.error "git pull failed"
      | some _ => Except.ok (w, [GitCmd.pull r.Dir])
    | _ => Except.error "git pull failed"

/-- Translation of `NewGitRepo` (tracker.go): build the handle, derive
and create the cache directory, then sync it. -/
def NewGitRepo (w : World) (rev url : String) :
    Except String (GitRepo × World × List GitCmd) :=
  match cacheDirFor w.root url with
  | none => Except.error "invalid url"
  | some dir =>
    let w1 := { w with fs := mkdirAll w.fs dir }
    let r : GitRepo := { Revision := rev, URL := url, Dir := dir }
    match updateCache w1 r with
    | Except.error e => Except.error e
    | Except.ok (w2, cmds) => Except.ok (r, w2, cmds)

/-! ## Log extraction: CommitLog (tracker.go)

`CommitLog` runs `git log --pretty=format:%H%x00%D%x00%ct%x00%s
--decorate=short --decorate-refs=refs/tags from..to` and parses the
output.  The range `from..to` contains the commits reachable from `to`
but not from `from`; with tag decoration restricted to tags, `%D` prints
`tag: a, tag: b` for the tags on the commit; the output has one line per
commit, newest first, and no trailing newline. -/

/-- Formats one commit the way the pretty format of `CommitLog` does. -/
def formatLogRecord (c : Commit) : String :=
  c.Hash ++ "\x00" ++ String.intercalate ", " (c.Tags.map (fun t => "tag: " ++ t))
    ++ "\x00" ++ toString c.Date ++ "\x00" ++ c.Title

/-- Output of the modelled `git log from..to` invocation. -/
def gitLogOutput (h : GitHistory) (f t : String) : String :=
  let fr := resolveRef h f
  let tr := resolveRef h t
  let inRange := h.log.filter
    (fun c => isAncestor h c.Hash tr ∧ ¬ isAncestor h c.Hash fr)
  String.intercalate "\n" (inRange.map formatLogRecord)

/-- Lines the `bufio.Scanner` produces from a text: none for empty
input, otherwise the newline-separated lines. -/
def scanLines (s : String) : List String :=
  if s = "" then [] else (splitAllOn '\n' s.data).map String.mk

/-- History backing a synced mirror handle: the queries of `CommitLog`
and `CheckUpdate` run right after `updateCache`, so the mirror content
is the remote history of the handle URL. -/
def historyFor (w : World) (r : GitRepo) : Option GitHistory :=
  w.remotes.lookup r.URL

/-- Translation of `(*GitRepo).CommitLog` (tracker.go): run the log
command over the mirror and parse its output with `parseChangelog`;
unknown revisions make the git command fail. -/
def CommitLog (w : World) (r : GitRepo) (fromCommit toCommit : String) :
    Except String (List Commit) :=
  match historyFor w r with
  | none => Except.error "git log failed: not a repository"
  | some h =>
    if commitExists h (resolveRef h fromCommit) ∧ commitExists h (resolveRef h toCommit) then
      parseChangelog (scanLines (gitLogOutput h fromCommit toCommit))
    else Except.error "git log failed: unknown revision"

/-- Changelog of one dependency, translated from the Go struct
`Changelog` (tracker.go).  The source declares a third field `Rule`, but
`NewCommits` builds the value from the repo handle and the commit list
alone, so the model carries exactly those two fields. -/
structure Changelog where
  Repo : GitRepo
  Log : List Commit
deriving DecidableEq

/-- Translation of `NewCommits` (tracker.go): sync the mirror, gate on
`CheckUpdate(rev, "HEAD")`, and extract the log; `ok none` is the
`return nil, nil` taken when the gate reports no update. -/
def NewCommits (w : World) (rev url : String) :
    Except String (Option Changelog × World × List GitCmd) :=
  match NewGitRepo w rev url with
  | Except.error e => Except.error e
  | Except.ok (r, w1, cmds) =>
    match historyFor w1 r with
    | none => Except.error "git merge-base failed: not a repository"
    | some h =>
      match CheckUpdate h r.Revision "HEAD" with
      | Except.error e => Except.error e
      | Except.ok p =>
        if ¬ p then Except.ok (none, w1, cmds)
        else
          match CommitLog w1 r r.Revision "HEAD" with
          | Except.error e => Except.error e
          | Except.ok cs => Except.ok (some { Repo := r, Log := cs }, w1, cmds)

/-! ## Report rendering: TextReport (reporter.go)

The markdown template of `textReportTmpl` is deterministic text
generation, translated here action by action, including the whitespace
trimming of the `-` markers.  The `shortHash` template helper is
`hash[:6]`, which panics when the hash has fewer than six characters;
`text/template` re-raises runtime errors raised inside helper functions,
so the panic escapes `Execute` instead of becoming its error return.
`none` models that panic; `some s` is the rendered text. -/

/-- Translation of the `shortHash` helper (reporter.go): `hash[:6]`,
with `none` modelling the slice-bounds panic on a short hash. -/
def shortHash (hash : String) : Option String :=
  if hash.data.length < 6 then none else some (String.mk (hash.data.take 6))

/-- Translation of `(*Changelog).CommitURL` (tracker.go). -/
def CommitURL (cl : Changelog) (hash : String) : String :=
  cl.Repo.URL ++ "/commit/" ++ hash

/-- Translation of `(*Changelog).TagURL` (tracker.go). -/
def TagURL (cl : Changelog) (tag : String) : String :=
  cl.Repo.URL ++ "/releases/tag/" ++ tag

/-- Text of the `with .Tags` block of the template: nothing for an
empty tag list, otherwise the decorated tag links. -/
def renderTagsPart (cl : Changelog) (tags : List String) : String :=
  if tags = [] then ""
  else " (🏷 " ++ String.join (tags.map (fun t => " [" ++ t ++ "](" ++ TagURL cl t ++ ")"))
    ++ ")"

/-- Text of one `range .Log` iteration of the template; `none` when the
`shortHash` helper panics. -/
def renderEntry (cl : Changelog) (c : Commit) : Option String :=
  (shortHash c.Hash).map (fun s =>
    "\n- [`" ++ s ++ "`](" ++ CommitURL cl c.Hash ++ ") " ++ c.Title
      ++ renderTagsPart cl c.Tags)

/-- Concatenated `range .Log` block. -/
def renderEntries (cl : Changelog) : List Commit → Option String
  | [] => some ""
  | c :: cs =>
    match renderEntry cl c, renderEntries cl cs with
    | some a, some b => some (a ++ b)
    | _, _ => none

/-- Translation of `TextReport` (reporter.go): executes the markdown
template on the changelog; `none` models the `shortHash` panic escaping
`Execute`. -/
def TextReport (cl : Changelog) : Option String :=
  (renderEntries cl cl.Log).map (fun body =>
    "# " ++ cl.Repo.URL ++ " \n<details><summary>There are "
      ++ toString cl.Log.length
      ++ " new commits.</summary><p>\n" ++ body ++ "\n</p></details>\n")

/-! ## Report sink and worker step: writeToFile and main (reporter.go)

`writeToFile` creates `<mirror dir>/report.md` and renders the
changelog into it.  Its parameter is the `*repotracker.Changelog`
returned by `NewCommits`; the function dereferences `cl.Repo`
unconditionally, so the nil changelog that `NewCommits` returns for an
up-to-date dependency is a nil-pointer dereference, i.e. a crash of the
worker.  The worker loop of `main` calls `NewCommits`, skips the
dependency when it returned an error, and otherwise hands the changelog
pointer — nil or not — straight to `writeToFile`. -/

/-- Outcome of one `writeToFile` call. -/
inductive WriteResult where
  | panicNilDeref : WriteResult
  | panicRender : WriteResult
  | written (w : World) : WriteResult
deriving DecidableEq

/-- Translation of `writeToFile` (repo.go): dereferences the changelog
pointer to build the report path, then renders into the created file. -/
def writeToFile (w : World) (ocl : Option Changelog) : WriteResult :=
  match ocl with
  | none => WriteResult.panicNilDeref
  | some cl =>
    let path := cl.Repo.Dir ++ "/report.md"
    match TextReport cl with
    | none => WriteResult.panicRender
    | some text =>
      WriteResult.written { w with fs := { w.fs with files := (path, text) :: w.fs.files } }

/-- One dependency record as the worker loop receives it. -/
structure GitDep where
  rev : String
  url : String
deriving DecidableEq

/-- Outcome of one worker-loop iteration for one dependency. -/
inductive DepOutcome where
  | skipped (e : String) : DepOutcome
  | panicked : DepOutcome
  | reported (w : World) : DepOutcome
deriving DecidableEq

/-- Translation of the worker-loop body of `main` (reporter.go): run
`NewCommits`, log-and-continue on error, otherwise pass the changelog
pointer to `writeToFile` with no nil check. -/
def processDep (w : World) (dep : GitDep) : DepOutcome :=
  match NewCommits w dep.rev dep.url with
  | Except.error e => DepOutcome.skipped e
  | Except.ok (ocl, w1, _) =>
    match writeToFile w1 ocl with
    | WriteResult.panicNilDeref => DepOutcome.panicked
    | WriteResult.panicRender => DepOutcome.panicked
    | WriteResult.written w2 => DepOutcome.reported w2

/-- Files visible after an outcome, for stating what got written. -/
def DepOutcome.filesOf : DepOutcome → List (String × String)
  | DepOutcome.reported w => w.fs.files
  | _ => []

/-- Whether the outcome is a completed report. -/
def DepOutcome.isReported : DepOutcome → Bool
  | DepOutcome.reported _ => true
  | _ => false

/-! ## Concurrency of the worker pool (reporter.go main)

`main` starts `maxConcurrency` goroutines, each of which drains the
shared channel and runs `NewCommits` — and so `updateCache`, i.e. the
clone or pull subprocess — for every dependency it receives.  The
package declares no mutex or other exclusion around the cache (the only
synchronization object in the source is the `sync.WaitGroup` used for
termination), so the sync subprocess of a worker is modelled as an
unguarded critical section: a `start` event that it always may take,
followed by a `finish` event.  A scheduler word picks which worker
steps; `active` is the multiset of URLs whose sync is in flight. -/

/-- Observable sync events of one worker processing one dependency. -/
inductive SyncEvent where
  | start (url : String) : SyncEvent
  | finish (url : String) : SyncEvent
deriving DecidableEq

/-- Sync trace of a worker that processes one dependency with the given
mirror URL: enter the clone-or-pull subprocess, then leave it.  No lock
acquisition precedes the entry because the source takes none. -/
def acquireSyncProg (url : String) : List SyncEvent :=
  [SyncEvent.start url, SyncEvent.finish url]

/-- Pool state: per-worker remaining events, and the URLs whose sync is
currently in flight. -/
structure PoolState where
  workers : List (List SyncEvent)
  active : List String
deriving DecidableEq

/-- One scheduler step: worker `i` executes its next event.  Every event
is always enabled — the translation point: the source has no guard to
make a worker wait. -/
def poolStep (s : PoolState) (i : Nat) : PoolState :=
  match s.workers.get? i with
  | some (SyncEvent.start u :: rest) =>
    { workers := s.workers.set i rest, active := u :: s.active }
  | some (SyncEvent.finish u :: rest) =>
    { workers := s.workers.set i rest, active := s.active.erase u }
  | _ => s

/-- Runs a schedule from the initial pool state. -/
def poolRun (progs : List (List SyncEvent)) (sched : List Nat) : PoolState :=
  sched.foldl poolStep { workers := progs, active := [] }

/-! ## Concrete worlds used by the evaluations below. -/

/-- Remote URL shared by the concrete scenarios. -/
def demoURL : String := "https://github.com/acme/widget"

/-- World with one remote whose head equals the only commit. -/
def demoWorld : World :=
  { root := "/tmp", remotes := [(demoURL, hist1)], fs := { dirs := [], files := [] } }

/-- World with the two-commit remote of `hist2`. -/
def demoWorld2 : World :=
  { root := "/tmp", remotes := [(demoURL, hist2)], fs := { dirs := [], files := [] } }

/-- Mirror handle matching the demo remote. -/
def demoRepo : GitRepo :=
  { Revision := "aaaaaa1", URL := demoURL, Dir := "/tmp/github_com/acme_widget" }

/-- Changelog whose commit hashes all have at least six characters. -/
def goodChangelog : Changelog :=
  { Repo := demoRepo, Log := hist2.log }

/-- Changelog holding a commit with a three-character hash. -/
def badChangelog : Changelog :=
  { Repo := demoRepo,
    Log := [{ Hash := "abc", Tags := [], Date := 0, Title := "short hash" }] }

/-! ## Sanity evaluations -/

example : githubREMatch "/acme/widget/archive/v1.2.3.tar.gz"
    = some ("acme", "widget", "v1.2.3") := by decide
example : HTTPToGit ["https://github.com/acme/widget/archive/v1.2.3.tar.gz"]
    = Except.ok { Revision := "v1.2.3", URL := "https://github.com/acme/widget" } := by decide
example : HTTPToGit
    ["https://codeload.github.com/acme/widget/tar.gz/5d2fd3ccab986d52112bf301d47a819783339d0e"]
    = Except.error "no valid url" := by decide
example : githubCodeloadREMatch "/acme/widget/tar.gz/5d2fd3ccab986d52112bf301d47a819783339d0e"
    = some ("acme", "widget", "5d2fd3ccab986d52112bf301d47a819783339d0e") := by decide
example : cacheDirFor "/tmp" "https://github.com/acme/widget.git"
    = some "/tmp/github_com/acme_widget" := by decide

example : parseLine "abc\x00\x0012\x00t" =
    Except.ok { Hash := "abc", Tags := [], Date := 12, Title := "t" } := by decide
example : parseLine "abc\x00tag: v1.0, v2\x0012\x00t" =
    Except.ok { Hash := "abc", Tags := ["v1.0", "v2"], Date := 12, Title := "t" } := by decide
example : parseChangelog ["h\x00\x0012\x00t\x00x"] =
    Except.ok [{ Hash := "h", Tags := [], Date := 12, Title := "t\x00x" }] := by decide
example : nulFieldCount "h\x00\x0012\x00t\x00x" = 5 := by decide

example : CheckUpdate hist1 "abcdef1" "abcdef1" = Except.ok true := by decide
example : CheckUpdate hist2 "aaaaaa1" "HEAD" = Except.ok true := by decide
example : CheckUpdate hist2 "bbbbbb2" "aaaaaa1"
    = Except.error "git merge-base --is-ancestor failed: exit status 1" := by decide
example : CheckUpdate hist2 "0000000" "HEAD"
    = Except.error "git merge-base --is-ancestor failed: unknown revision" := by decide

example :
    (processDep demoWorld { rev := "abcdef1", url := demoURL }).isReported = true := by decide
example :
    (processDep demoWorld { rev := "abcdef1", url := demoURL }).filesOf.lookup
      "/tmp/github_com/acme_widget/report.md"
    = some ("# https://github.com/acme/widget \n<details><summary>There are 0 new commits.</summary><p>\n\n</p></details>\n") := by
  decide
example :
    (poolRun [acquireSyncProg demoURL, acquireSyncProg demoURL] [0, 1]).active.count demoURL
      = 2 := by decide

/-! ## Splitting lemmas

Facts connecting the capped `SplitN` split used by `parseLine` with the
unbounded field decomposition the specification speaks about. -/

theorem splitFirstOn_some_length (sep : Char) :
    ∀ cs pre post, splitFirstOn sep cs = some (pre, post) → post.length < cs.length := by
  intro cs
  induction cs with
  | nil => intro pre post h; simp [splitFirstOn] at h
  | cons c cs ih =>
    intro pre post h
    by_cases hc : c = sep
    · simp [splitFirstOn, hc] at h
      simp [h.2.symm, List.length_cons, Nat.lt_succ_self]
    · simp only [splitFirstOn, if_neg hc] at h
      cases hrec : splitFirstOn sep cs with
      | none => rw [hrec] at h; simp at h
      | some pq =>
        rw [hrec] at h
        simp at h
        have := ih pq.1 pq.2 (by rw [hrec])
        simp [← h.2]
        omega

theorem splitAllOnFuel_stable (sep : Char) :
    ∀ f₁ f₂ cs, cs.length < f₁ → cs.length < f₂ →
      splitAllOnFuel sep f₁ cs = splitAllOnFuel sep f₂ cs := by
  intro f₁
  induction f₁ with
  | zero => intro f₂ cs h1; omega
  | succ g ih =>
    intro f₂ cs h1 h2
    cases f₂ with
    | zero => omega
    | succ g2 =>
      simp only [splitAllOnFuel]
      cases hsf : splitFirstOn sep cs with
      | none => rfl
      | some pq =>
        have hlen := splitFirstOn_some_length sep cs pq.1 pq.2 (by rw [hsf])
        exact congrArg (pq.1 :: ·) (ih g2 pq.2 (by omega) (by omega))

theorem splitAllOn_eq_of_none (sep : Char) (cs : List Char)
    (h : splitFirstOn sep cs = none) : splitAllOn sep cs = [cs] := by
  simp [splitAllOn, splitAllOnFuel, h]

theorem splitAllOn_eq_of_some (sep : Char) (cs pre post : List Char)
    (h : splitFirstOn sep cs = some (pre, post)) :
    splitAllOn sep cs = pre :: splitAllOn sep post := by
  have hlen := splitFirstOn_some_length sep cs pre post h
  simp only [splitAllOn, splitAllOnFuel, h]
  exact congrArg (pre :: ·)
    (splitAllOnFuel_stable sep cs.length (post.length + 1) post (by omega) (by omega))

theorem splitAllOn_length_pos (sep : Char) (cs : List Char) :
    1 ≤ (splitAllOn sep cs).length := by
  cases hsf : splitFirstOn sep cs with
  | none => simp [splitAllOn_eq_of_none sep cs hsf]
  | some pq => simp [splitAllOn_eq_of_some sep cs pq.1 pq.2 (by rw [hsf])]

theorem splitNOn_length (sep : Char) :
    ∀ n cs, (splitNOn sep (n + 1) cs).length = min (n + 1) (splitAllOn sep cs).length := by
  intro n
  induction n with
  | zero =>
    intro cs
    have := splitAllOn_length_pos sep cs
    simp [splitNOn]
    omega
  | succ m ih =>
    intro cs
    cases hsf : splitFirstOn sep cs with
    | none =>
      rw [splitAllOn_eq_of_none sep cs hsf]
      simp [splitNOn, hsf]
    | some pq =>
      rw [splitAllOn_eq_of_some sep cs pq.1 pq.2 (by rw [hsf])]
      simp only [splitNOn, hsf, List.length_cons, ih pq.2]
      omega

theorem splitNOn_get? (sep : Char) :
    ∀ k n cs, k + 1 < n →
      (splitNOn sep n cs).get? k = (splitAllOn sep cs).get? k := by
  intro k
  induction k with
  | zero =>
    intro n cs hn
    match n, hn with
    | Nat.succ (Nat.succ m), _ =>
      cases hsf : splitFirstOn sep cs with
      | none => rw [splitAllOn_eq_of_none sep cs hsf]; simp [splitNOn, hsf]
      | some pq =>
        rw [splitAllOn_eq_of_some sep cs pq.1 pq.2 (by rw [hsf])]
        simp [splitNOn, hsf]
  | succ j ih =>
    intro n cs hn
    match n, hn with
    | Nat.succ (Nat.succ m), _ =>
      cases hsf : splitFirstOn sep cs with
      | none => rw [splitAllOn_eq_of_none sep cs hsf]; simp [splitNOn, hsf]
      | some pq =>
        rw [splitAllOn_eq_of_some sep cs pq.1 pq.2 (by rw [hsf])]
        simp only [splitNOn, hsf, List.get?_cons_succ]
        exact ih (Nat.succ m) pq.2 (by omega)

theorem splitFirstOn_append (sep : Char) :
    ∀ a b, sep ∉ a → splitFirstOn sep (a ++ sep :: b) = some (a, b) := by
  intro a
  induction a with
  | nil => intro b _; simp [splitFirstOn]
  | cons c a ih =>
    intro b hmem
    have hc : ¬ c = sep := fun h => hmem (by simp [h])
    have ha : sep ∉ a := fun h => hmem (List.mem_cons_of_mem c h)
    simp [splitFirstOn, hc, ih b ha]

theorem splitNOn_append (sep : Char) (n : Nat) (a b : List Char) (h : sep ∉ a) :
    splitNOn sep (n + 2) (a ++ sep :: b) = a :: splitNOn sep (n + 1) b := by
  simp [splitNOn, splitFirstOn_append sep a b h]

/-! ## Characterization of the per-line parse -/

/-- One line parses successfully exactly when it has at least four
NUL-separated fields and the third one is a decimal 64-bit integer; the
`SplitN` cap means surplus fields beyond the fourth are folded into the
title rather than rejected. -/
theorem parseLine_isOk_iff (l : String) :
    (parseLine l).isOk = true ↔
      (4 ≤ nulFieldCount l ∧ thirdFieldNumeric l = true) := by
  have hlen : (splitNOn nulChar 4 l.data).length
      = min 4 (splitAllOn nulChar l.data).length :=
    splitNOn_length nulChar 3 l.data
  by_cases h4 : 4 ≤ (splitAllOn nulChar l.data).length
  · have hplen : (splitNOn nulChar 4 l.data).length = 4 := by
      rw [hlen]; omega
    have hget : (splitNOn nulChar 4 l.data).get? 2 = (splitAllOn nulChar l.data).get? 2 :=
      splitNOn_get? nulChar 2 4 l.data (by omega)
    obtain ⟨f, hf⟩ : ∃ f, (splitAllOn nulChar l.data).get? 2 = some f := by
      cases hg : (splitAllOn nulChar l.data).get? 2 with
      | none => exact absurd (List.get?_eq_none.mp hg) (by omega)
      | some f => exact ⟨f, rfl⟩
    have hgetD : (splitNOn nulChar 4 l.data).getD 2 [] = f := by
      show ((splitNOn nulChar 4 l.data).get? 2).getD [] = f
      rw [hget, hf]; rfl
    have hthird : thirdFieldNumeric l = (parseInt64 (String.mk f)).isSome := by
      simp only [thirdFieldNumeric, hf]
    simp only [parseLine, hplen, if_pos rfl, hgetD, hthird, nulFieldCount]
    cases parseInt64 (String.mk f) with
    | none => simp [Except.isOk, Except.toBool]
    | some ts => simp [Except.isOk, Except.toBool, Option.isSome, h4]
  · have hplen : (splitNOn nulChar 4 l.data).length ≠ 4 := by
      rw [hlen]; omega
    simp only [parseLine, if_neg hplen, nulFieldCount, Except.isOk, Except.toBool]
    constructor
    · intro h; exact absurd h (by decide)
    · intro hc; exact absurd hc.1 (by omega)

/-! ## Claim C5 — malformed-record handling of the changelog parser -/

/-- Counterexample to claim C5 as stated: the record
`h\x00\x0012\x00t\x00x` has five NUL-separated fields, which the claim
says must make the whole extraction fail, yet `parseChangelog` accepts
it — `strings.SplitN(line, nul, 4)` folds the surplus separator into
the title, so the call succeeds with the stray NUL kept in the title. -/
theorem claim5_counterexample :
    nulFieldCount "h\x00\x0012\x00t\x00x" = 5 ∧
      parseChangelog ["h\x00\x0012\x00t\x00x"]
        = Except.ok [{ Hash := "h", Tags := [], Date := 12, Title := "t\x00x" }] := by
  decide

/-- Claim C5, amended to what the code does: extraction succeeds exactly
when every record has at least four NUL-separated fields and a numeric
third field — a record with fewer fields or a non-numeric timestamp
aborts the whole call with an error carrying no partial commit list,
while records with more than four fields are accepted with the surplus
folded into the title. -/
theorem claim5_spec (lines : List String) :
    (parseChangelog lines).isOk = true ↔
      ∀ l ∈ lines, 4 ≤ nulFieldCount l ∧ thirdFieldNumeric l = true := by
  induction lines with
  | nil => simp [parseChangelog, Except.isOk, Except.toBool]
  | cons l ls ih =>
    constructor
    · intro hok
      have hl : (parseLine l).isOk = true := by
        simp only [parseChangelog] at hok
        cases hpl : parseLine l with
        | error e => rw [hpl] at hok; simp [Except.isOk, Except.toBool] at hok
        | ok c => simp [Except.isOk, Except.toBool]
      have hls : (parseChangelog ls).isOk = true := by
        simp only [parseChangelog] at hok
        cases hpl : parseLine l with
        | error e => rw [hpl] at hok; simp [Except.isOk, Except.toBool] at hok
        | ok c =>
          rw [hpl] at hok
          cases hrest : parseChangelog ls with
          | error e => rw [hrest] at hok; simp [Except.isOk, Except.toBool] at hok
          | ok cs => simp [Except.isOk, Except.toBool]
      intro x hx
      rcases List.mem_cons.mp hx with hx | hx
      · subst hx; exact (parseLine_isOk_iff x).mp hl
      · exact (ih.mp hls) x hx
    · intro hall
      have hl : (parseLine l).isOk = true :=
        (parseLine_isOk_iff l).mpr (hall l (List.mem_cons_self l ls))
      have hls : (parseChangelog ls).isOk = true :=
        ih.mpr (fun x hx => hall x (List.mem_cons_of_mem l hx))
      simp only [parseChangelog]
      cases hpl : parseLine l with
      | error e => rw [hpl] at hl; simp [Except.isOk, Except.toBool] at hl
      | ok c =>
        cases hrest : parseChangelog ls with
        | error e => rw [hrest] at hls; simp [Except.isOk, Except.toBool] at hls
        | ok cs => simp [Except.isOk, Except.toBool]

/-- Witness for claim C5 at a concrete stream: a well-formed single
record passes the success characterization. -/
theorem claim5_witness :
    (parseChangelog ["h\x00t\x0012\x00s"]).isOk = true :=
  (claim5_spec ["h\x00t\x0012\x00s"]).mpr (by decide)

/-! ## Claim C6 — parsing of a well-formed log record -/

/-- Claim C6: a well-formed record `hash NUL tags NUL epoch NUL title`
whose first three fields are NUL-free and whose timestamp field parses
as a 64-bit decimal integer parses to exactly one `Commit` that keeps
the hash and title verbatim, decodes the timestamp as epoch seconds, and
decodes the tag field by the empty/split-and-strip rule of `parseTags`. -/
theorem claim6_spec (hash tags epoch title : String) (ts : Int)
    (h1 : nulChar ∉ hash.data) (h2 : nulChar ∉ tags.data) (h3 : nulChar ∉ epoch.data)
    (h4 : parseInt64 epoch = some ts) :
    parseChangelog [hash ++ "\x00" ++ tags ++ "\x00" ++ epoch ++ "\x00" ++ title]
      = Except.ok [{ Hash := hash, Tags := parseTags tags, Date := ts, Title := title }] := by
  have hmk : ∀ s : String, String.mk s.data = s := fun s => by cases s; rfl
  have hdata : (hash ++ "\x00" ++ tags ++ "\x00" ++ epoch ++ "\x00" ++ title).data
      = hash.data ++ nulChar :: (tags.data ++ nulChar :: (epoch.data ++ nulChar :: title.data)) := by
    simp only [String.data_append]
    show hash.data ++ [nulChar] ++ tags.data ++ [nulChar] ++ epoch.data ++ [nulChar]
        ++ title.data = _
    simp [List.append_assoc]
  have hsplit :
      splitNOn nulChar 4 (hash ++ "\x00" ++ tags ++ "\x00" ++ epoch ++ "\x00" ++ title).data
        = [hash.data, tags.data, epoch.data, title.data] := by
    rw [hdata]
    rw [splitNOn_append nulChar 2 _ _ h1]
    rw [splitNOn_append nulChar 1 _ _ h2]
    rw [splitNOn_append nulChar 0 _ _ h3]
    rfl
  have hline : parseLine (hash ++ "\x00" ++ tags ++ "\x00" ++ epoch ++ "\x00" ++ title)
      = Except.ok { Hash := hash, Tags := parseTags tags, Date := ts, Title := title } := by
    simp only [parseLine, hsplit]
    simp [List.getD, hmk, h4]
  simp only [parseChangelog, hline]

/-- Witness for claim C6 at a concrete record with two tags. -/
theorem claim6_witness :
    parseChangelog
        ["abc1234" ++ "\x00" ++ "tag: v1.0, v2.0" ++ "\x00" ++ "1500000000" ++ "\x00"
          ++ "Fix the bug"]
      = Except.ok [{ Hash := "abc1234", Tags := ["v1.0", "v2.0"], Date := 1500000000,
                     Title := "Fix the bug" }] := by
  have h := claim6_spec "abc1234" "tag: v1.0, v2.0" "1500000000" "Fix the bug" 1500000000
    (by decide) (by decide) (by decide) (by decide)
  rw [h]
  decide

/-! ## Claim C1 — semantics of the update check -/

/-- Counterexample to claim C1 as stated.  The claim demands
`CheckUpdate` return false when the pinned revision equals the head;
since `git merge-base --is-ancestor` treats a commit as an ancestor of
itself and exits 0, `CheckUpdate` returns true there.  The further
conjuncts show the remaining departures at concrete inputs: a pinned
revision that exists but is not an ancestor produces an error (never a
false result without an error), and an absent pinned revision produces
the same generic wrapped `runGit` error value — the source defines no
separate revision-not-found error kind at all. -/
theorem claim1_counterexample :
    CheckUpdate hist1 "abcdef1" "abcdef1" = Except.ok true ∧
      CheckUpdate hist1 "abcdef1" "abcdef1" ≠ Except.ok false ∧
      CheckUpdate hist2 "bbbbbb2" "aaaaaa1"
        = Except.error "git merge-base --is-ancestor failed: exit status 1" ∧
      CheckUpdate hist2 "0000000" "HEAD"
        = Except.error "git merge-base --is-ancestor failed: unknown revision" := by
  decide

/-- Claim C1, amended to what the code does: `CheckUpdate` returns true
exactly when both revisions exist in the mirror history and the pinned
revision is an ancestor of the head in the reflexive sense — equality
included — and in every other case it fails with the generic wrapped
git error: it never returns false without an error and distinguishes no
revision-not-found error kind. -/
theorem claim1_spec (h : GitHistory) (fromCommit toCommit : String) :
    (CheckUpdate h fromCommit toCommit = Except.ok true ↔
      (commitExists h (resolveRef h fromCommit) = true ∧
        commitExists h (resolveRef h toCommit) = true ∧
        isAncestor h (resolveRef h fromCommit) (resolveRef h toCommit) = true)) ∧
    (∀ b, CheckUpdate h fromCommit toCommit = Except.ok b → b = true) := by
  unfold CheckUpdate
  constructor
  · by_cases hex : commitExists h (resolveRef h fromCommit) = true ∧
        commitExists h (resolveRef h toCommit) = true
    · rw [if_pos hex]
      by_cases ha : isAncestor h (resolveRef h fromCommit) (resolveRef h toCommit) = true
      · rw [if_pos ha]; simp [hex.1, hex.2, ha]
      · rw [if_neg ha]; simp [ha]
    · rw [if_neg hex]
      constructor
      · intro hc; exact Except.noConfusion hc
      · intro hc; exact absurd ⟨hc.1, hc.2.1⟩ hex
  · intro b hb
    by_cases hex : commitExists h (resolveRef h fromCommit) = true ∧
        commitExists h (resolveRef h toCommit) = true
    · rw [if_pos hex] at hb
      by_cases ha : isAncestor h (resolveRef h fromCommit) (resolveRef h toCommit) = true
      · rw [if_pos ha] at hb
        exact (Except.ok.inj hb).symm
      · rw [if_neg ha] at hb
        exact absurd hb (by simp)
    · rw [if_neg hex] at hb
      exact absurd hb (by simp)

/-- Witness for claim C1: the success characterization applied at the
equal-revision input of the single-commit history. -/
theorem claim1_witness : CheckUpdate hist1 "abcdef1" "abcdef1" = Except.ok true :=
  (claim1_spec hist1 "abcdef1" "abcdef1").1.mpr (by decide)

/-! ## Claim C2 — behaviour on an up-to-date dependency -/

/-- Claim C2 evaluated on an up-to-date dependency: with the mirror head
equal to the pinned revision, `CheckUpdate` reports an update (reflexive
ancestry), `NewCommits` therefore builds a `Changelog` with an empty
commit list, and the worker writes a `report.md` announcing zero new
commits — the claim says no changelog and no report.  The final conjunct
shows the other half of the slip: had `NewCommits` taken its documented
no-update branch and returned a nil changelog, the worker would hand nil
to `writeToFile`, which dereferences it. -/
theorem claim2_spec :
    (processDep demoWorld { rev := "abcdef1", url := demoURL }).isReported = true ∧
      (processDep demoWorld { rev := "abcdef1", url := demoURL }).filesOf.lookup
          "/tmp/github_com/acme_widget/report.md"
        = some ("# https://github.com/acme/widget \n<details><summary>There are 0 new commits.</summary><p>\n\n</p></details>\n") ∧
      writeToFile demoWorld none = WriteResult.panicNilDeref := by
  decide

/-! ## Claim C3 — codeload archive URL resolution -/

/-- Claim C3 evaluated: the codeload candidate URL fails to resolve.
The registered mapper for `codeload.github.com` applies `githubRE`,
whose middle alternation requires an `archive` or `releases/download`
segment that codeload paths do not have, so the mapper rejects the path
and `HTTPToGit` exhausts its only candidate.  The second conjunct shows
the unused `githubCodeloadRE` would have extracted exactly the
coordinate the claim expects. -/
theorem claim3_spec :
    HTTPToGit
        ["https://codeload.github.com/acme/widget/tar.gz/5d2fd3ccab986d52112bf301d47a819783339d0e"]
      = Except.error "no valid url" ∧
      githubCodeloadREMatch "/acme/widget/tar.gz/5d2fd3ccab986d52112bf301d47a819783339d0e"
        = some ("acme", "widget", "5d2fd3ccab986d52112bf301d47a819783339d0e") := by
  decide

/-! ## Claim C4 — github archive URL resolution -/

/-- Claim C4: the archive-form candidate URL
`https://github.com/acme/widget/archive/v1.2.3.tar.gz` resolves through
the `github.com` mapper to the canonical repository URL with revision
`v1.2.3`. -/
theorem claim4_spec :
    HTTPToGit ["https://github.com/acme/widget/archive/v1.2.3.tar.gz"]
      = Except.ok { Revision := "v1.2.3", URL := "https://github.com/acme/widget" } := by
  decide

/-! ## Claim C7 — clone-once-then-fetch sync policy -/

/-- Claim C7: when the cache directory for a URL is absent or empty and
the remote is reachable, the first acquisition clones — issuing exactly
one clone command — and a second acquisition of the same URL issues only
a pull against the existing directory, leaves the mirror in the valid
cloned state, and the two calls together clone exactly once. -/
theorem claim7_spec (w : World) (url rev dir : String) (h : GitHistory)
    (hrem : w.remotes.lookup url = some h)
    (hdir : cacheDirFor w.root url = some dir)
    (hempty : w.fs.dirs.lookup dir = none ∨ w.fs.dirs.lookup dir = some DirContent.empty) :
    ∃ r w1 w2,
      NewGitRepo w rev url = Except.ok (r, w1, [GitCmd.clone url dir]) ∧
      NewGitRepo w1 rev url = Except.ok (r, w2, [GitCmd.pull dir]) ∧
      w2.fs.dirs.lookup dir = some (DirContent.repo url) ∧
      (([GitCmd.clone url dir] ++ [GitCmd.pull dir]).filter GitCmd.isClone).length = 1 := by
  have hmk : (mkdirAll w.fs dir).dirs.lookup dir = some DirContent.empty := by
    rcases hempty with hab | hemp
    · simp [mkdirAll, hab, List.lookup_cons]
    · simp [mkdirAll, hemp]
  refine ⟨{ Revision := rev, URL := url, Dir := dir },
    { w with fs := setDir (mkdirAll w.fs dir) dir (DirContent.repo url) },
    { w with fs := setDir (mkdirAll w.fs dir) dir (DirContent.repo url) },
    ?_, ?_, ?_, ?_⟩
  · simp [NewGitRepo, hdir, updateCache, isDirEmpty, hmk, hrem]
  · simp [NewGitRepo, hdir, updateCache, isDirEmpty, mkdirAll, setDir,
      List.lookup_cons, hrem]
  · simp [setDir, List.lookup_cons]
  · simp [List.filter, GitCmd.isClone]

/-- Witness for claim C7 in the concrete demo world, starting from an
absent cache directory. -/
theorem claim7_witness :
    ∃ r w1 w2,
      NewGitRepo demoWorld "aaaaaa1" demoURL
          = Except.ok (r, w1, [GitCmd.clone demoURL "/tmp/github_com/acme_widget"]) ∧
      NewGitRepo w1 "aaaaaa1" demoURL
          = Except.ok (r, w2, [GitCmd.pull "/tmp/github_com/acme_widget"]) ∧
      w2.fs.dirs.lookup "/tmp/github_com/acme_widget" = some (DirContent.repo demoURL) ∧
      (([GitCmd.clone demoURL "/tmp/github_com/acme_widget"]
          ++ [GitCmd.pull "/tmp/github_com/acme_widget"]).filter GitCmd.isClone).length = 1 :=
  claim7_spec demoWorld demoURL "aaaaaa1" "/tmp/github_com/acme_widget" hist1
    (by decide) (by decide) (Or.inl (by decide))

/-! ## Claim C8 — cache path derivation -/

/-- Counterexample to claim C8 as stated: for the remote
`https://github.com/acme/widget.git`, applying the claimed sanitization
— exactly the replacement of non-word runs on the host and path
components — yields `/tmp/github_com/_acme_widget_git`, while the source
first strips the leading slash and the `.git` suffix from the path and
so derives `/tmp/github_com/acme_widget`. -/
theorem claim8_counterexample :
    cacheDirFor "/tmp" "https://github.com/acme/widget.git"
        = some "/tmp/github_com/acme_widget" ∧
      claimedCacheDir "/tmp" "https://github.com/acme/widget.git"
        = some "/tmp/github_com/_acme_widget_git" ∧
      cacheDirFor "/tmp" "https://github.com/acme/widget.git"
        ≠ claimedCacheDir "/tmp" "https://github.com/acme/widget.git" := by
  decide

/-- Claim C8, amended to what the code does: the cache path is
`root/<sanitized host>/<sanitized path>` where the path component first
loses one leading `/` and one trailing `.git`, and then both components
have every run of non-word characters collapsed to a single `_`. -/
theorem claim8_spec (root url host path : String)
    (h : urlParse url = some (host, path)) :
    cacheDirFor root url
      = some (joinPath [root, pathUnsafeCollapse host,
          pathUnsafeCollapse (trimDotGit (trimLeadingSlash path))]) := by
  simp [cacheDirFor, h]

/-- Witness for claim C8 at the concrete remote of the counterexample. -/
theorem claim8_witness :
    cacheDirFor "/tmp" "https://github.com/acme/widget.git"
      = some (joinPath ["/tmp", pathUnsafeCollapse "github.com",
          pathUnsafeCollapse (trimDotGit (trimLeadingSlash "/acme/widget.git"))]) :=
  claim8_spec "/tmp" "https://github.com/acme/widget.git" "github.com"
    "/acme/widget.git" (by decide)

/-! ## Claim C9 — mutual exclusion of same-URL syncs -/

/-- Claim C9 evaluated: the source takes no lock around the clone/fetch
of `updateCache` — the only synchronization object in the repository is
the termination `WaitGroup` — so when two workers each process a
dependency with the same URL, the schedule that lets both enter the sync
before either finishes is reachable and puts two concurrent syncs of one
URL in flight, where the claim allows at most one.  The second conjunct
records the half that does hold: workers on different URLs proceed
independently, neither blocking the other. -/
theorem claim9_spec :
    (poolRun [acquireSyncProg demoURL, acquireSyncProg demoURL] [0, 1]).active.count demoURL
        = 2 ∧
      (poolRun [acquireSyncProg demoURL, acquireSyncProg "https://github.com/other/lib"]
          [0, 1]).active
        = ["https://github.com/other/lib", demoURL] := by
  decide

/-! ## Claim C10 — unguarded hash slice in report rendering -/

/-- Claim C10: rendering succeeds whenever every commit hash of the
changelog has at least six characters, and the changelog holding a
three-character hash makes the `shortHash` helper slice out of bounds,
which escapes `Execute` as a panic rather than an error return. -/
theorem claim10_spec :
    (∀ cl : Changelog, (∀ c ∈ cl.Log, 6 ≤ c.Hash.data.length) →
      (TextReport cl).isSome = true) ∧
    TextReport badChangelog = none := by
  constructor
  · intro cl hall
    have hren : ∀ log, (∀ c ∈ log, 6 ≤ c.Hash.data.length) →
        (renderEntries cl log).isSome = true := by
      intro log
      induction log with
      | nil => intro _; simp [renderEntries]
      | cons c cs ih =>
        intro hl
        have hc : 6 ≤ c.Hash.data.length := hl c (List.mem_cons_self c cs)
        have hcs := ih (fun x hx => hl x (List.mem_cons_of_mem c hx))
        have hs : shortHash c.Hash = some (String.mk (c.Hash.data.take 6)) := by
          unfold shortHash
          rw [if_neg (by omega)]
        cases hre : renderEntries cl cs with
        | none => rw [hre] at hcs; simp at hcs
        | some b => simp [renderEntries, renderEntry, hs, hre]
    have h2 := hren cl.Log hall
    cases hre : renderEntries cl cl.Log with
    | none => rw [hre] at h2; simp at h2
    | some b => simp [TextReport, hre]
  · decide

/-- Witness for claim C10: the all-long-hash changelog renders, the
short-hash changelog panics. -/
theorem claim10_witness :
    (TextReport goodChangelog).isSome = true ∧ TextReport badChangelog = none :=
  ⟨claim10_spec.1 goodChangelog (by decide), claim10_spec.2⟩

end RepoTracker
